import Mathlib

/-!
Verification of the MMS PDU decoder of psanford/gsm (package mms).

The Go decoder reads from a byte stream; here a stream is a `List Nat`
(bytes, values 0-255 in well-formed inputs) and every reader returns
`Except DecErr (value, remaining-stream)`.  Go strings produced from raw
bytes are modelled as `List Nat`; ASCII literals are injected with
`strBytes` and rendered back with `goStr` (byte-to-char, injective on
bytes, so equality of renderings coincides with equality of byte lists).

Go `uint32` arithmetic is modelled on `Nat` with an explicit `% 2^32`
at each accumulation step.

Fidelity notes on the Go decoder structure that the embedding mirrors:
- `decoder` wraps the stream in a `bufio.Reader` over a `bytes.Reader`.
  `bufio` fills its 4096-byte buffer eagerly on the first read, so
  `decoder.offset()` (the position of the underlying `bytes.Reader`)
  equals `min (length) 4096` after any successful read.  The two
  places this leaks are modelled explicitly below
  (`decodeEncodedString` charset branch and the "pending part headers"
  check in `decodePartHeaderBlock`).
- Errors are Go `error` values built with `fmt.Errorf`; `DecErr`
  mirrors each construction site together with the data interpolated
  into the message (`%w` wrapping becomes a nested `DecErr`).
-/

namespace Mms

/-- Bytes of an ASCII Lean string literal, for Go string literals in the source. -/
def strBytes (s : String) : List Nat := s.data.map Char.toNat

/-- Render a Go byte string: each byte becomes the char of its code point.
Injective on byte lists, so equality of renderings is equality of bytes. -/
def goStr (bs : List Nat) : String := ⟨bs.map Char.ofNat⟩

/-- Decimal digits of a number as ASCII bytes, as Go fmt %d prints it (fuel-bounded). -/
def digitsAux : Nat → Nat → List Nat
  | 0, _ => []
  | fuel + 1, n => if n < 10 then [48 + n] else digitsAux fuel (n / 10) ++ [48 + n % 10]

/-- ASCII decimal rendering of a Nat (as Go fmt %d). -/
def decBytes (n : Nat) : List Nat := digitsAux 32 n

/-- Go map assignment m[k] = v on an association-list model of a string map.
Go maps are unordered; all folds over them below write distinct keys, so this
deterministic representation is observation-equivalent. -/
def mapSet (m : List (List Nat × List Nat)) (k v : List Nat) : List (List Nat × List Nat) :=
  if m.any (fun p => p.1 = k) then m.map (fun p => if p.1 = k then (k, v) else p)
  else m ++ [(k, v)]

/-- Fold one string map into another, overwriting (Go: for k, v := range src dst[k] = v). -/
def mapMerge (dst src : List (List Nat × List Nat)) : List (List Nat × List Nat) :=
  src.foldl (fun acc p => mapSet acc p.1 p.2) dst

/-- Decode errors.  Each constructor corresponds to one error construction
site in the Go source, carrying exactly the data interpolated into the
message (byte positions are omitted: decoder.offset() reflects bufio
buffering, not the logical read position).  eof is Go io.EOF,
unexpectedEof is io.ErrUnexpectedEOF from a partial io.ReadFull. -/
inductive DecErr
  | eof
  | unexpectedEof
  | outOfFuel
  | invalidShortInt (value : Nat)
  | invalidBoolean (value : Nat)
  | invalidLongInt (shortLen : Nat)
  | unsupportedLongInt (shortLen : Nat)
  | invalidValueLength (value : Nat)
  | invalidVarUint
  | invalidEmptyEncodedString
  | invalidFrom
  | invalidFromToken (value : Nat)
  | unknownShortContentType (idx : Nat)
  | invalidDeliveryTimeMode (mode : Nat)
  | unknownFieldType (field : Nat)
  | ctParams (e : DecErr)
  | partHeaderShortRead (n want : Nat)
  | partContentType (e : DecErr)
  | pendingPartHeaders
  | partHeadersErr (e : DecErr)
  | partBodyShortRead
  | partHeaderField (tag : Nat) (e : DecErr)
  | unknownPartHeader (tag : Nat)
  deriving DecidableEq, Repr

/-- Modelled from the spec: the static well-known content-type table
(`contentTypes` in the repository is not among the provided source files;
only its uses are).  Per the spec it is the WSP "Content Type Assignments
table in Assigned Numbers", indexed by the short-integer value; the first
entries of that table are reproduced here, enough for every claim
(in particular "text/plain" at index 3). -/
def contentTypes : List (List Nat) :=
  [strBytes "*/*", strBytes "text/*", strBytes "text/html", strBytes "text/plain",
   strBytes "text/x-hdml", strBytes "text/x-ttml", strBytes "text/x-vCalendar",
   strBytes "text/x-vCard", strBytes "text/vnd.wap.wml"]

/-- Go bufio ReadBytes(0): bytes up to and including the first zero byte;
io.EOF if the stream ends before a zero byte (every caller in the source
discards the partial data on error). -/
def readUntilZeroIncl : List Nat → Except DecErr (List Nat × List Nat)
  | [] => .error .eof
  | b :: r =>
      if b = 0 then .ok ([0], r)
      else
        match readUntilZeroIncl r with
        | .error e => .error e
        | .ok (text, rest) => .ok (b :: text, rest)

/-- Go io.ReadFull into a buffer of length n: io.EOF if nothing is available,
io.ErrUnexpectedEOF on a partial read. -/
def readExact (n : Nat) (l : List Nat) : Except DecErr (List Nat × List Nat) :=
  if l.length < n then
    if l.isEmpty then .error .eof else .error .unexpectedEof
  else .ok (l.take n, l.drop n)

/-- decodeVarUint loop body: at most `fuel` iterations remain and the
continuation bit of the previous byte was set.  Accumulation is Go uint32:
result = (result<<7 | b&0x7f) mod 2^32. -/
def decodeVarUintAux : Nat → Nat → List Nat → Except DecErr (Nat × List Nat)
  | 0, _, _ => .error .invalidVarUint
  | fuel + 1, acc, input =>
      match input with
      | [] => .error .eof
      | b :: rest =>
          let acc2 := ((acc <<< 7) ||| (b &&& 0x7f)) % 4294967296
          if b &&& 0x80 = 0x80 then decodeVarUintAux fuel acc2 rest
          else .ok (acc2, rest)

/-- decodeVarUint: WSP uintvar, maxIter = 5. -/
def decodeVarUint (input : List Nat) : Except DecErr (Nat × List Nat) :=
  decodeVarUintAux 5 0 input

/-- decodeValueLength: one byte 0-30 is the length; 31 quotes a varUint; else error. -/
def decodeValueLength : List Nat → Except DecErr (Nat × List Nat)
  | [] => .error .eof
  | b :: r =>
      if b < 31 then .ok (b, r)
      else if b = 31 then decodeVarUint r
      else .error (.invalidValueLength b)

/-- decodeShortInt: one byte, high bit required, returns the low 7 bits. -/
def decodeShortInt : List Nat → Except DecErr (Nat × List Nat)
  | [] => .error .eof
  | b :: r =>
      if b &&& 0x80 ≠ 0x80 then .error (.invalidShortInt b)
      else .ok (b &&& 0x7f, r)

/-- decodeLongInt accumulator: Go uint32 u = u<<8 | b at each byte. -/
def longIntAcc (bytes : List Nat) : Nat :=
  bytes.foldl (fun u b => ((u <<< 8) ||| b) % 4294967296) 0

/-- decodeLongInt: length byte (error if above 30, unsupported if above 8),
then that many big-endian bytes. -/
def decodeLongInt : List Nat → Except DecErr (Nat × List Nat)
  | [] => .error .eof
  | b :: r =>
      if 30 < b then .error (.invalidLongInt b)
      else if 8 < b then .error (.unsupportedLongInt b)
      else if r.length < b then .error .eof
      else .ok (longIntAcc (r.take b), r.drop b)

/-- decodeBoolean: 128 is true, 129 is false, anything else is an error. -/
def decodeBoolean : List Nat → Except DecErr (Bool × List Nat)
  | [] => .error .eof
  | b :: r =>
      if b = 128 then .ok (true, r)
      else if b = 129 then .ok (false, r)
      else .error (.invalidBoolean b)

/-- decodeTextEnc: optional quote byte (consumed iff first byte above 127),
then bytes up to and including a zero byte; result excludes the terminator. -/
def decodeTextEnc (input : List Nat) : Except DecErr (List Nat × List Nat) :=
  match input with
  | [] => .error .eof
  | b :: r =>
      let r1 := if 127 < b then r else b :: r
      match readUntilZeroIncl r1 with
      | .error e => .error e
      | .ok (text, rest) =>
          if text.length ≤ 1 then .ok ([], rest)
          else .ok (text.dropLast, rest)

/-- decodeEncodedString.  First byte below 32: a value-length block whose
first byte is a charset marker (127: rest of block is the text; above 32:
re-decode the block as a text string; otherwise a longInteger charset index
followed by text).  In the last branch the Go source reads the longInteger
through a bufio.Reader over the block and then io.ReadAll directly from the
underlying bytes.Reader, which bufio has already drained up to 4096 bytes,
so the text is the block beyond byte 4096 (empty for blocks up to 4096).
First byte 32 or above: ReadBytes(0); if more than the terminator was read
the source returns string(text[len(text)-1]) - the one-byte string holding
the final zero byte (the slice colon of text[:len(text)-1] is missing). -/
def decodeEncodedString (input : List Nat) : Except DecErr (List Nat × List Nat) :=
  match input with
  | [] => .error .eof
  | b :: _ =>
      if b < 32 then
        match decodeValueLength input with
        | .error e => .error e
        | .ok (l, r1) =>
            match readExact l r1 with
            | .error e => .error e
            | .ok (buf, r2) =>
                if buf.length < 1 then .error .invalidEmptyEncodedString
                else if buf.headD 0 = 127 then .ok (buf.drop 1, r2)
                else if 32 < buf.headD 0 then
                  match decodeTextEnc buf with
                  | .error e => .error e
                  | .ok (s, _) => .ok (s, r2)
                else
                  match decodeLongInt buf with
                  | .error e => .error e
                  | .ok (_, _) =>
                      let text := buf.drop (min buf.length 4096)
                      if text.length ≤ 1 then .ok ([], r2)
                      else .ok (text.dropLast, r2)
      else
        match readUntilZeroIncl input with
        | .error e => .error e
        | .ok (text, rest) =>
            if text.length ≤ 1 then .ok ([], rest)
            else .ok ([text.getLastD 0], rest)

/-- decodeConstrainedMedia.  First byte below 127: ReadBytes(0); if more
than the terminator was read the source returns string(text[len(text)-1]),
the one-byte string holding the final zero byte (missing slice colon).
Otherwise a shortInteger index into contentTypes; an index at or past the
end of the table is an error. -/
def decodeConstrainedMedia (input : List Nat) : Except DecErr (List Nat × List Nat) :=
  match input with
  | [] => .error .eof
  | b :: _ =>
      if b < 127 then
        match readUntilZeroIncl input with
        | .error e => .error e
        | .ok (text, rest) =>
            if text.length ≤ 1 then .ok ([], rest)
            else .ok ([text.getLastD 0], rest)
      else
        match decodeShortInt input with
        | .error e => .error e
        | .ok (v, r) =>
            if contentTypes.length ≤ v then .error (.unknownShortContentType v)
            else .ok (contentTypes.getD v [], r)

/-- Remaining stream after a decodeVarUint attempt, whether or not it
succeeded (a failed attempt still consumed its bytes). -/
def varUintSkip : Nat → List Nat → List Nat
  | 0, input => input
  | _ + 1, [] => []
  | fuel + 1, b :: r => if b &&& 0x80 = 0x80 then varUintSkip fuel r else r

/-- Remaining stream after a decodeValueLength attempt, whether or not it
succeeded: the first byte is always consumed; byte 31 consumes a varUint too. -/
def valueLengthSkip : List Nat → List Nat
  | [] => []
  | b :: r => if b = 31 then varUintSkip 5 r else r

/-- The decoded Delivery-Time/Expiry value (HeaderRelativeOrAbsoluteTime):
exactly one of the absolute time (epoch seconds) or the relative duration
(seconds) is set. -/
inductive RelOrAbsTime
  | absolute (sec : Nat)
  | relative (sec : Nat)
  deriving DecidableEq, Repr

/-- decodeRelativeOrAbsoluteTime: the source calls d.decodeValueLength()
discarding both its result and its error, so only its byte consumption
remains; then a mode byte, then a longInteger, then the mode is checked
(128 absolute, 129 relative, else error). -/
def decodeRelativeOrAbsoluteTime (input : List Nat) :
    Except DecErr (RelOrAbsTime × List Nat) :=
  let r1 := valueLengthSkip input
  match r1 with
  | [] => .error .eof
  | mode :: r2 =>
      match decodeLongInt r2 with
      | .error e => .error e
      | .ok (v, r3) =>
          if mode = 128 then .ok (.absolute v, r3)
          else if mode = 129 then .ok (.relative v, r3)
          else .error (.invalidDeliveryTimeMode mode)

/-- decodeMessageClass: first byte below 127 is literal text (note: here the
source does use the correct text[:len(text)-1] slice, with an empty result
when fewer than two bytes were read); otherwise a sentinel byte 128-131
selects a well-known class, and any other byte above 126 renders as
UnknownMessageClass of that byte. -/
def decodeMessageClass (input : List Nat) : Except DecErr (List Nat × List Nat) :=
  match input with
  | [] => .error .eof
  | b :: r =>
      if b < 127 then
        match readUntilZeroIncl (b :: r) with
        | .error e => .error e
        | .ok (text, rest) =>
            if text.length < 2 then .ok ([], rest)
            else .ok (text.dropLast, rest)
      else
        if b = 128 then .ok (strBytes "personal", r)
        else if b = 129 then .ok (strBytes "advertisement", r)
        else if b = 130 then .ok (strBytes "informational", r)
        else if b = 131 then .ok (strBytes "auto", r)
        else .ok (strBytes "UnknownMessageClass<" ++ decBytes b ++ strBytes ">", r)

/-- decodeFrom: a value-length block whose first byte is 128
(address present: the remainder of the block is an encodedString decoded by
a fresh sub-decoder) or 129 (insert-address token); anything else is an error. -/
def decodeFrom (input : List Nat) : Except DecErr (List Nat × List Nat) :=
  match decodeValueLength input with
  | .error e => .error e
  | .ok (l, r1) =>
      if l < 1 then .error .invalidFrom
      else
        match readExact l r1 with
        | .error e => .error e
        | .ok (buf, r2) =>
            let b := buf.headD 0
            if b = 128 then
              match decodeEncodedString (buf.drop 1) with
              | .error e => .error e
              | .ok (s, _) => .ok (s, r2)
            else if b = 129 then .ok (strBytes "<insert-address-token>", r2)
            else .error (.invalidFromToken b)

/-- HeaderMessageType constant: the Unknown variant. -/
def UnknownMessageType : Nat := 0

/-- HeaderMessageType constant m-send-req. -/
def MSendReq : Nat := 128

/-- HeaderMessageType constant m-notification-ind. -/
def MNotificationInd : Nat := 130

/-- decodeMessageType: one byte; values outside 128-134 yield the
UnknownMessageType variant, never an error. -/
def decodeMessageType : List Nat → Except DecErr (Nat × List Nat)
  | [] => .error .eof
  | b :: r =>
      if b < 128 ∨ 134 < b then .ok (UnknownMessageType, r)
      else .ok (b, r)

/-- HeaderMessageType.String. -/
def msgTypeString (n : Nat) : String :=
  if n = 128 then "m-send-req"
  else if n = 129 then "m-send-conf"
  else if n = 130 then "m-notification-ind"
  else if n = 131 then "m-notifyresp-ind"
  else if n = 132 then "m-retrieve-conf"
  else if n = 133 then "m-acknowledge-ind"
  else if n = 134 then "m-delivery-ind"
  else "UnknownMessageType"

/-- decodeVersion: shortInteger split into a 3-bit major and 4-bit minor
(minor 15 becomes 0), rendered major.minor with fmt %d.%d. -/
def decodeVersion (input : List Nat) : Except DecErr (List Nat × List Nat) :=
  match decodeShortInt input with
  | .error e => .error e
  | .ok (b, r) =>
      let major := (b &&& 0x70) >>> 4
      let minor0 := b &&& 0x0f
      let minor := if minor0 = 15 then 0 else minor0
      .ok (decBytes major ++ (46 :: decBytes minor), r)

/-- Well-known content-type parameters recognized by decodeContentTypeParams,
as a record of optional values (the Go map only ever holds the keys
TypeParam, StartParam, CharsetParam, NameParam; FilenameParam is looked up
by decodePartHeaders but never written). -/
structure CTParams where
  typeP : Option (List Nat)
  startP : Option (List Nat)
  charsetP : Option (List Nat)
  nameP : Option (List Nat)
  filenameP : Option (List Nat)
  deriving DecidableEq, Repr

/-- The empty parameter map. -/
def CTParams.empty : CTParams := ⟨none, none, none, none, none⟩

/-- Set the Type parameter. -/
def CTParams.withType (p : CTParams) (v : List Nat) : CTParams :=
  ⟨some v, p.startP, p.charsetP, p.nameP, p.filenameP⟩

/-- Set the Start parameter. -/
def CTParams.withStart (p : CTParams) (v : List Nat) : CTParams :=
  ⟨p.typeP, some v, p.charsetP, p.nameP, p.filenameP⟩

/-- Set the Charset parameter. -/
def CTParams.withCharset (p : CTParams) (v : List Nat) : CTParams :=
  ⟨p.typeP, p.startP, some v, p.nameP, p.filenameP⟩

/-- Set the Name parameter. -/
def CTParams.withName (p : CTParams) (v : List Nat) : CTParams :=
  ⟨p.typeP, p.startP, p.charsetP, some v, p.filenameP⟩

/-- decodeContentTypeParams loop: read a parameter-code byte until the
buffer is exhausted (end of buffer is normal termination); recognized codes
are Type 0x83 / CT-MR-Type 0x89, Start 0x99 / legacy 0x8a, Charset 0x81,
Name 0x97 / legacy 0x85; every other code is silently skipped.  The charset
inline-text case stores string(text[len(text)-1]) - the one-byte string of
the final zero byte (missing slice colon, as in decodeConstrainedMedia). -/
def ctParamsLoop : Nat → CTParams → List Nat → Except DecErr CTParams
  | 0, _, _ => .error .outOfFuel
  | _ + 1, acc, [] => .ok acc
  | fuel + 1, acc, b :: r =>
      if b = 0x83 ∨ b = 0x89 then
        match r with
        | [] => .error .eof
        | b2 :: _ =>
            if 127 < b2 then
              match decodeShortInt r with
              | .error e => .error e
              | .ok (idx, r2) =>
                  if idx < contentTypes.length then
                    ctParamsLoop fuel (acc.withType (contentTypes.getD idx [])) r2
                  else ctParamsLoop fuel acc r2
            else
              match decodeTextEnc r with
              | .error e => .error e
              | .ok (s, r2) => ctParamsLoop fuel (acc.withType s) r2
      else if b = 0x99 ∨ b = 0x8a then
        match decodeTextEnc r with
        | .error e => .error e
        | .ok (s, r2) => ctParamsLoop fuel (acc.withStart s) r2
      else if b = 0x81 then
        match r with
        | [] => .error .eof
        | b2 :: _ =>
            if b2 < 127 then
              match readUntilZeroIncl r with
              | .error e => .error e
              | .ok (text, r2) =>
                  if text.length ≤ 1 then ctParamsLoop fuel acc r2
                  else ctParamsLoop fuel (acc.withCharset [text.getLastD 0]) r2
            else
              match decodeShortInt r with
              | .error e => .error e
              | .ok (v, r2) =>
                  if v < contentTypes.length then
                    ctParamsLoop fuel (acc.withCharset (contentTypes.getD v [])) r2
                  else ctParamsLoop fuel acc r2
      else if b = 0x97 ∨ b = 0x85 then
        match decodeTextEnc r with
        | .error e => .error e
        | .ok (s, r2) => ctParamsLoop fuel (acc.withName s) r2
      else ctParamsLoop fuel acc r

/-- decodeContentTypeParams: the loop above, consuming the whole stream. -/
def decodeContentTypeParams (input : List Nat) : Except DecErr CTParams :=
  ctParamsLoop (input.length + 1) CTParams.empty input

/-- decodeContentTypeValue: lead byte below 32 is the general form (a
value-length block holding a constrainedMedia then parameters); otherwise
the constrained short form with no parameters (Go returns a nil map,
modelled as none). -/
def decodeContentTypeValue (input : List Nat) :
    Except DecErr ((List Nat × Option CTParams) × List Nat) :=
  match input with
  | [] => .error .eof
  | b :: _ =>
      if b < 32 then
        match decodeValueLength input with
        | .error e => .error e
        | .ok (l, r1) =>
            match readExact l r1 with
            | .error e => .error e
            | .ok (buf, r2) =>
                match decodeConstrainedMedia buf with
                | .error e => .error e
                | .ok (ct, r3) =>
                    match decodeContentTypeParams r3 with
                    | .error e => .error (.ctParams e)
                    | .ok params => .ok ((ct, some params), r2)
      else
        match decodeConstrainedMedia input with
        | .error e => .error e
        | .ok (ct, r) => .ok ((ct, none), r)

/-- PartHeaderField.String. -/
def partHeaderName (p : Nat) : List Nat :=
  if p = 0x91 then strBytes "Content-Type"
  else if p = 0x8E then strBytes "Content-Location"
  else if p = 0xC0 then strBytes "Content-ID"
  else if p = 0xAE then strBytes "Dep-Content-Disposition"
  else if p = 0xC5 then strBytes "Content-Disposition"
  else if p = 0xC8 then strBytes "Content-Transfer-Encoding"
  else strBytes "UnkownPartHeaderField<" ++ decBytes p ++ strBytes ">"

/-- PartDispositionType.String. -/
def dispStr (pd : Nat) : List Nat :=
  if pd = 128 then strBytes "FormDataDisposition"
  else if pd = 129 then strBytes "AttachmentDisposition"
  else if pd = 130 then strBytes "InlineDisposition"
  else strBytes "UnkownPartDispositionType<" ++ decBytes pd ++ strBytes ">"

/-- decodePartHeaders loop.  Peeked byte above 127 is a numeric part header:
Content-Location 0x8E / Content-ID 0xC0 decode a textString starting at the
still-unconsumed tag byte (which decodeTextEnc then swallows as the quote);
Content-Disposition 0xC5 / legacy 0xAE read a value-length starting at the
still-unconsumed tag byte (the tag, above 31, makes decodeValueLength fail,
so this branch always errors), then a disposition block; any other numeric
code is a fatal unknown-header error.  A peeked byte of 127 or less starts
a plain name/value pair of textStrings. -/
def partHeadersLoop :
    Nat → List Nat → List (List Nat × List Nat) → List Nat →
      Except DecErr (List Nat × List (List Nat × List Nat))
  | 0, _, _, _ => .error .outOfFuel
  | _ + 1, fn, resp, [] => .ok (fn, resp)
  | fuel + 1, fn, resp, b :: r =>
      if 127 < b then
        if b = 0x8E ∨ b = 0xC0 then
          match decodeTextEnc (b :: r) with
          | .error e => .error (.partHeaderField b e)
          | .ok (txt, r2) =>
              partHeadersLoop fuel fn (mapSet resp (partHeaderName b) txt) r2
        else if b = 0xC5 ∨ b = 0xAE then
          match decodeValueLength (b :: r) with
          | .error e => .error (.partHeaderField b e)
          | .ok (l, r1) =>
              match readExact l r1 with
              | .error e => .error (.partHeaderField b e)
              | .ok (buf, r2) =>
                  match buf with
                  | [] => .error (.partHeaderField b .eof)
                  | b2 :: bufr =>
                      if 127 < b2 then
                        match decodeContentTypeParams bufr with
                        | .error e => .error (.partHeaderField b e)
                        | .ok params =>
                            partHeadersLoop fuel (params.filenameP.getD [])
                              (mapSet resp (partHeaderName b) (dispStr b2)) r2
                      else
                        match decodeTextEnc buf with
                        | .error e => .error (.partHeaderField b e)
                        | .ok (txt, rbuf) =>
                            match decodeContentTypeParams rbuf with
                            | .error e => .error (.partHeaderField b e)
                            | .ok params =>
                                partHeadersLoop fuel (params.filenameP.getD [])
                                  (mapSet resp (partHeaderName b) txt) r2
        else .error (.unknownPartHeader b)
      else
        match decodeTextEnc (b :: r) with
        | .error e => .error e
        | .ok (name, r1) =>
            match decodeTextEnc r1 with
            | .error e => .error e
            | .ok (val, r2) => partHeadersLoop fuel fn (mapSet resp name val) r2

/-- decodePartHeaders: loop until the stream is exhausted, returning the
filename (only ever set by the disposition branch) and the header map. -/
def decodePartHeaders (input : List Nat) :
    Except DecErr (List Nat × List (List Nat × List Nat)) :=
  partHeadersLoop (input.length + 1) [] [] input

/-- The decoded data of one part header block: content type, filename and
header map (PDUPart minus the payload). -/
structure PartInfo where
  contentType : List Nat
  fileName : List Nat
  header : List (List Nat × List Nat)
  deriving DecidableEq, Repr

/-- Fold the recognized content-type parameters into a part header map under
their human-readable keys (Go iterates the map; keys are distinct so the
order is immaterial). -/
def foldParams (p : Option CTParams) (m : List (List Nat × List Nat)) :
    List (List Nat × List Nat) :=
  match p with
  | none => m
  | some ps =>
      let m1 := match ps.typeP with
        | some v => mapSet m (strBytes "Content-Type") v
        | none => m
      let m2 := match ps.nameP with
        | some v => mapSet m1 (strBytes "Name") v
        | none => m1
      let m3 := match ps.charsetP with
        | some v => mapSet m2 (strBytes "Character-Set") v
        | none => m2
      match ps.startP with
      | some v => mapSet m3 (strBytes "Start") v
      | none => m3

/-- Processing of one part header block in decodeBody: decode the content
type (errors wrapped), fold its parameters into the header map, run the
"pending part headers" check (decoder.offset() is the bufio fill position,
min(length, 4096), so the check fires exactly when the block exceeds 4096
bytes), then decodePartHeaders on the remainder (errors wrapped) and merge
its map over the parameter-derived entries. -/
def decodePartHeaderBlock (headerBuf : List Nat) : Except DecErr PartInfo :=
  match decodeContentTypeValue headerBuf with
  | .error e => .error (.partContentType e)
  | .ok ((ct, params), r) =>
      let m := foldParams params []
      if 4096 < headerBuf.length then .error .pendingPartHeaders
      else
        match decodePartHeaders r with
        | .error e => .error (.partHeadersErr e)
        | .ok (fn, resp) => .ok ⟨ct, fn, mapMerge m resp⟩

/-- PDUPart: one decoded body part. -/
structure PDUPart where
  header : List (List Nat × List Nat)
  fileName : List Nat
  contentType : List Nat
  data : List Nat
  deriving DecidableEq, Repr

/-- Assemble a PDUPart from its decoded header block and raw payload. -/
def mkPart (info : PartInfo) (data : List Nat) : PDUPart :=
  ⟨info.header, info.fileName, info.contentType, data⟩

/-- The per-part loop of decodeBody, one iteration per declared entry:
varUint header length, varUint data length, exactly header-length bytes of
header block (short read is fatal, reporting read and wanted counts),
the header block processing, then exactly data-length bytes of raw payload
(short read is fatal, without counts: the Go error only wraps io.ReadFull's
error). -/
def decodeParts : Nat → List Nat → Except DecErr (List PDUPart × List Nat)
  | 0, input => .ok ([], input)
  | n + 1, input =>
      match decodeVarUint input with
      | .error e => .error e
      | .ok (hl, r1) =>
          match decodeVarUint r1 with
          | .error e => .error e
          | .ok (dl, r2) =>
              if r2.length < hl then .error (.partHeaderShortRead r2.length hl)
              else
                match decodePartHeaderBlock (r2.take hl) with
                | .error e => .error e
                | .ok info =>
                    let r3 := r2.drop hl
                    if r3.length < dl then .error .partBodyShortRead
                    else
                      match decodeParts n (r3.drop dl) with
                      | .error e => .error e
                      | .ok (ps, rest) => .ok (mkPart info (r3.take dl) :: ps, rest)

/-- decodeBody: a varUint part count, then that many parts. -/
def decodeBody (input : List Nat) : Except DecErr (List PDUPart × List Nat) :=
  match decodeVarUint input with
  | .error e => .error e
  | .ok (entries, r) => decodeParts entries r

/-- HeaderField: the header value union (Go interface HeaderField), one
variant per concrete Go header type, carrying the decoded value. -/
inductive HeaderField
  | str (bs : List Nat)
  | boolean (b : Bool)
  | uint (n : Nat)
  | time (sec : Nat)
  | relAbs (t : RelOrAbsTime)
  | msgType (n : Nat)
  | priority (n : Nat)
  | responseStatus (n : Nat)
  | senderVisibility (n : Nat)
  | status (n : Nat)
  deriving DecidableEq, Repr

/-- The header map: Go map[MMSField][]HeaderField with append, modelled as
the insertion log; hdrGet recovers a field's list. -/
abbrev HdrMap := List (Nat × HeaderField)

/-- The ordered list of values stored under one field. -/
def hdrGet (hdr : HdrMap) (f : Nat) : List HeaderField :=
  hdr.filterMap (fun p => if p.1 = f then some p.2 else none)

/-- True exactly for the field-tag values the decodeHeader switch handles
(Bcc 1 through TransactionID 24, plus RetrieveStatus 25). -/
def knownMMSField (f : Nat) : Bool := decide (1 ≤ f ∧ f ≤ 25)

/-- decodeHeader loop: read a field-tag byte (high bit required; a clean end
of input, or a tag byte of value 0, terminates normally), dispatch on the
low 7 bits to the decoder for that field, append the value to the field's
list; ContentType (4) is terminal; RetrieveStatus (25) consumes one value
byte and stores nothing; an unrecognized field is a fatal error naming it. -/
def decodeHeaderLoop : Nat → HdrMap → List Nat → Except DecErr (HdrMap × List Nat)
  | 0, _, _ => .error .outOfFuel
  | _ + 1, hdr, [] => .ok (hdr, [])
  | fuel + 1, hdr, b :: r =>
      if b &&& 0x80 ≠ 0x80 then .error (.invalidShortInt b)
      else
        let f := b &&& 0x7f
        if f = 0 then .ok (hdr, r)
        else if f = 1 ∨ f = 2 ∨ f = 19 ∨ f = 22 ∨ f = 23 then
          match decodeEncodedString r with
          | .error e => .error e
          | .ok (s, r2) => decodeHeaderLoop fuel (hdr ++ [(f, .str s)]) r2
        else if f = 9 then
          match decodeFrom r with
          | .error e => .error e
          | .ok (s, r2) => decodeHeaderLoop fuel (hdr ++ [(f, .str s)]) r2
        else if f = 6 ∨ f = 16 ∨ f = 17 then
          match decodeBoolean r with
          | .error e => .error e
          | .ok (v, r2) => decodeHeaderLoop fuel (hdr ++ [(f, .boolean v)]) r2
        else if f = 4 then
          match decodeContentTypeValue r with
          | .error e => .error e
          | .ok ((ct, _), r2) => .ok (hdr ++ [(f, .str ct)], r2)
        else if f = 5 then
          match decodeLongInt r with
          | .error e => .error e
          | .ok (v, r2) => decodeHeaderLoop fuel (hdr ++ [(f, .time v)]) r2
        else if f = 7 ∨ f = 8 then
          match decodeRelativeOrAbsoluteTime r with
          | .error e => .error e
          | .ok (t, r2) => decodeHeaderLoop fuel (hdr ++ [(f, .relAbs t)]) r2
        else if f = 14 then
          match decodeLongInt r with
          | .error e => .error e
          | .ok (v, r2) => decodeHeaderLoop fuel (hdr ++ [(f, .uint v)]) r2
        else if f = 10 then
          match decodeMessageClass r with
          | .error e => .error e
          | .ok (s, r2) => decodeHeaderLoop fuel (hdr ++ [(f, .str s)]) r2
        else if f = 11 ∨ f = 3 ∨ f = 24 then
          match decodeTextEnc r with
          | .error e => .error e
          | .ok (s, r2) => decodeHeaderLoop fuel (hdr ++ [(f, .str s)]) r2
        else if f = 12 then
          match decodeMessageType r with
          | .error e => .error e
          | .ok (t, r2) => decodeHeaderLoop fuel (hdr ++ [(f, .msgType t)]) r2
        else if f = 13 then
          match decodeVersion r with
          | .error e => .error e
          | .ok (s, r2) => decodeHeaderLoop fuel (hdr ++ [(f, .str s)]) r2
        else if f = 15 then
          match r with
          | [] => .error .eof
          | x :: r2 => decodeHeaderLoop fuel (hdr ++ [(f, .priority x)]) r2
        else if f = 18 then
          match r with
          | [] => .error .eof
          | x :: r2 => decodeHeaderLoop fuel (hdr ++ [(f, .responseStatus x)]) r2
        else if f = 20 then
          match r with
          | [] => .error .eof
          | x :: r2 => decodeHeaderLoop fuel (hdr ++ [(f, .senderVisibility x)]) r2
        else if f = 21 then
          match r with
          | [] => .error .eof
          | x :: r2 => decodeHeaderLoop fuel (hdr ++ [(f, .status x)]) r2
        else if f = 25 then decodeHeaderLoop fuel hdr (r.drop 1)
        else .error (.unknownFieldType f)

/-- decodeHeader: run the loop from an empty map (each loop iteration
consumes at least one byte, so length + 1 fuel never runs out). -/
def decodeHeader (input : List Nat) : Except DecErr (HdrMap × List Nat) :=
  decodeHeaderLoop (input.length + 1) [] input

/-- Message: decoded header map plus the body parts. -/
structure Message where
  header : HdrMap
  parts : List PDUPart
  deriving DecidableEq

/-- Unmarshal: decode the header, then the body; a body error that is
exactly io.EOF is tolerated (the message then has no parts, since
decodeBody returns nil parts alongside an error); any other error aborts
with no Message. -/
def Unmarshal (packet : List Nat) : Except DecErr Message :=
  match decodeHeader packet with
  | .error e => .error e
  | .ok (hdr, rest) =>
      match decodeBody rest with
      | .error .eof => .ok ⟨hdr, []⟩
      | .error e => .error e
      | .ok (parts, _) => .ok ⟨hdr, parts⟩

/-- The high-order 7-bit groups of the standard uintvar encoding, each with
the continuation bit set, most significant first (fuel-bounded; fuel 6
covers every value below 2^42). -/
def encodeVarUintCont : Nat → Nat → List Nat
  | 0, _ => []
  | fuel + 1, n => if n = 0 then [] else encodeVarUintCont fuel (n / 128) ++ [128 + n % 128]

/-- The standard 7-bit-per-byte MSB-continuation ("uintvar") encoding of n,
from the spec: 7 data bits per byte, high bit marks continuation,
big-endian, minimal length. -/
def encodeVarUint (n : Nat) : List Nat := encodeVarUintCont 6 (n / 128) ++ [n % 128]

/-- Number of bytes encodeVarUintCont emits (proof helper). -/
def glen : Nat → Nat → Nat
  | 0, _ => 0
  | fuel + 1, n => if n = 0 then 0 else glen fuel (n / 128) + 1

/-- The spec phrase "an error reporting the byte counts", as a predicate on
decode errors: true exactly for the constructor that carries the read and
wanted byte counts. -/
def DecErr.reportsByteCounts : DecErr → Bool
  | .partHeaderShortRead _ _ => true
  | _ => false

/-! ## Helper lemmas -/

theorem shiftLeft7_lor_eq_add (a b : Nat) (h : b < 128) : (a <<< 7) ||| b = a * 128 + b := by
  apply Nat.eq_of_testBit_eq
  intro i
  simp only [Nat.testBit_lor, Nat.testBit_shiftLeft]
  rcases Nat.lt_or_ge i 7 with hi | hi
  · have hd : ¬ (i ≥ 7) := by omega
    have hmod : (a * 128 + b) % 2 ^ 7 = b := by
      have h1 : (a * 128 + b) % 128 = b % 128 := by omega
      simpa [Nat.mod_eq_of_lt h] using h1
    have h2 := Nat.testBit_mod_two_pow (a * 128 + b) 7 i
    rw [hmod] at h2
    simp [hd, hi] at h2 ⊢
    simp [h2]
  · obtain ⟨k, rfl⟩ : ∃ k, i = 7 + k := ⟨i - 7, by omega⟩
    have hble : (128 : Nat) ≤ 2 ^ (7 + k) := by
      calc (128 : Nat) = 2 ^ 7 := by norm_num
        _ ≤ 2 ^ (7 + k) := Nat.pow_le_pow_right (by omega) (by omega)
    have hb : b.testBit (7 + k) = false := Nat.testBit_lt_two_pow (by omega)
    have hdiv : (a * 128 + b) >>> 7 = a := by
      rw [Nat.shiftRight_eq_div_pow]
      show (a * 128 + b) / 128 = a
      omega
    have h3 := Nat.testBit_shiftRight (x := a * 128 + b) (i := 7) (j := k)
    rw [hdiv] at h3
    simp [hb, ← h3, Nat.add_sub_cancel_left, show 7 + k ≥ 7 by omega]

theorem and127_eq_mod (b : Nat) : b &&& 127 = b % 128 := by
  have h1 := Nat.and_pow_two_sub_one_eq_mod b 7
  norm_num at h1
  simpa using h1

theorem and128_of_lt (b : Nat) (h : b < 128) : b &&& 128 = 0 := by
  have h2 : b.testBit 7 = false := Nat.testBit_lt_two_pow (by omega)
  have h1 := Nat.and_two_pow b 7
  norm_num at h1
  simp [h1, h2]

theorem and128_high (x : Nat) (h : x < 128) : (128 + x) &&& 128 = 128 := by
  have hx : x.testBit 7 = false := Nat.testBit_lt_two_pow (by omega)
  have h2 : (128 + x).testBit 7 = true := by
    have h3 := Nat.testBit_two_pow_add_eq x 7
    norm_num at h3
    simp [h3, hx]
  have h1 := Nat.and_two_pow (128 + x) 7
  norm_num at h1
  simp [h1, h2]

theorem glen_le : ∀ F k m, m < 128 ^ k → glen F m ≤ k := by
  intro F
  induction F with
  | zero => intro k m _; simp [glen]
  | succ F ih =>
      intro k m hm
      by_cases h0 : m = 0
      · simp [glen, h0]
      · match k with
        | 0 => omega
        | k + 1 =>
            have hlt : m / 128 < 128 ^ k := by
              apply Nat.div_lt_of_lt_mul
              calc m < 128 ^ (k + 1) := hm
                _ = 128 * 128 ^ k := by ring
            simp only [glen, h0, if_false]
            have := ih k (m / 128) hlt
            omega

theorem varUintAux_cont :
    ∀ F m acc fuel rest, m < 128 ^ F → acc < 4294967296 →
      decodeVarUintAux fuel acc (encodeVarUintCont F m ++ rest) =
        decodeVarUintAux (fuel - glen F m)
          ((acc * 128 ^ glen F m + m) % 4294967296) rest := by
  intro F
  induction F with
  | zero =>
      intro m acc fuel rest hm hacc
      interval_cases m
      simp [encodeVarUintCont, glen, Nat.mod_eq_of_lt hacc]
  | succ F ih =>
      intro m acc fuel rest hm hacc
      by_cases h0 : m = 0
      · simp [encodeVarUintCont, glen, h0, Nat.mod_eq_of_lt hacc]
      · have hdivlt : m / 128 < 128 ^ F := by
          apply Nat.div_lt_of_lt_mul
          calc m < 128 ^ (F + 1) := hm
            _ = 128 * 128 ^ F := by ring
        simp only [encodeVarUintCont, glen, h0, if_false, List.append_assoc, List.cons_append,
          List.nil_append]
        rw [ih (m / 128) acc fuel ((128 + m % 128) :: rest) hdivlt hacc]
        set g := glen F (m / 128) with hg
        set acc1 := (acc * 128 ^ g + m / 128) % 4294967296 with hacc1
        rcases Nat.eq_zero_or_pos (fuel - g) with hz | hp
        · rw [hz]
          have : fuel - (g + 1) = 0 := by omega
          rw [this]
          rfl
        · obtain ⟨s, hs⟩ : ∃ s, fuel - g = s + 1 := ⟨fuel - g - 1, by omega⟩
          rw [hs]
          have hcont : (128 + m % 128) &&& 128 = 128 :=
            and128_high (m % 128) (Nat.mod_lt _ (by norm_num))
          have hlow : (128 + m % 128) &&& 127 = m % 128 := by
            rw [and127_eq_mod]
            omega
          simp only [decodeVarUintAux, hcont, hlow, if_pos rfl]
          have hstep : ((acc1 <<< 7) ||| (m % 128)) % 4294967296 =
              (acc * 128 ^ (g + 1) + m) % 4294967296 := by
            rw [shiftLeft7_lor_eq_add acc1 (m % 128) (Nat.mod_lt _ (by norm_num))]
            rw [hacc1]
            have h2 : (acc * 128 ^ g + m / 128) % 4294967296 * 128 + m % 128 ≡
                (acc * 128 ^ g + m / 128) * 128 + m % 128 [MOD 4294967296] :=
              Nat.ModEq.add_right _ (Nat.ModEq.mul_right _ (Nat.mod_modEq _ _))
            have h3 : (acc * 128 ^ g + m / 128) * 128 + m % 128 =
                acc * 128 ^ (g + 1) + m := by
              have := Nat.div_add_mod m 128
              ring_nf
              omega
            calc ((acc * 128 ^ g + m / 128) % 4294967296 * 128 + m % 128) % 4294967296
                = ((acc * 128 ^ g + m / 128) * 128 + m % 128) % 4294967296 := h2
              _ = (acc * 128 ^ (g + 1) + m) % 4294967296 := by rw [h3]
          rw [hstep]
          have hfs : fuel - (g + 1) = s := by omega
          rw [hfs]
          simp

theorem varUint_encode_decode (n : Nat) (h : n < 4294967296) (rest : List Nat) :
    decodeVarUint (encodeVarUint n ++ rest) = .ok (n, rest) := by
  have hmlt : n / 128 < 128 ^ 6 := by
    have : n / 128 ≤ n := Nat.div_le_self _ _
    calc n / 128 ≤ n := this
      _ < 4294967296 := h
      _ < 128 ^ 6 := by norm_num
  have hglen : glen 6 (n / 128) ≤ 4 := by
    apply glen_le
    show n / 128 < 128 ^ 4
    omega
  unfold decodeVarUint encodeVarUint
  rw [List.append_assoc, List.cons_append, List.nil_append,
    varUintAux_cont 6 (n / 128) 0 5 ((n % 128) :: rest) hmlt (by norm_num)]
  have hacc : (0 * 128 ^ glen 6 (n / 128) + n / 128) % 4294967296 = n / 128 := by
    rw [Nat.zero_mul, Nat.zero_add]
    exact Nat.mod_eq_of_lt (by omega)
  rw [hacc]
  obtain ⟨s, hs⟩ : ∃ s, 5 - glen 6 (n / 128) = s + 1 := ⟨4 - glen 6 (n / 128), by omega⟩
  rw [hs]
  have hnc : (n % 128) &&& 128 = 0 := and128_of_lt _ (Nat.mod_lt _ (by norm_num))
  have hlow : (n % 128) &&& 127 = n % 128 := by
    rw [and127_eq_mod]
    omega
  simp only [decodeVarUintAux, hnc, hlow]
  rw [shiftLeft7_lor_eq_add (n / 128) (n % 128) (Nat.mod_lt _ (by norm_num))]
  have : n / 128 * 128 + n % 128 = n := by omega
  rw [this, Nat.mod_eq_of_lt h]
  simp

/-! ## Claims -/

/-- Claim C1: the claim says a first byte below 127 makes
decodeConstrainedMedia return the plain textString decoding (the bytes
before the terminator).  The code instead returns the one-byte string
holding the final zero byte: on input "ab\0" decodeTextEnc gives "ab" but
decodeConstrainedMedia gives "\0" (the slice colon of text[:len(text)-1]
is missing in the source).  The short-integer branch does behave as
claimed: a high first byte indexes contentTypes and an index at or past
the end of the table is a decode error. -/
theorem claim_C1_slice_bug :
    decodeTextEnc [97, 98, 0] = .ok ([97, 98], []) ∧
    decodeConstrainedMedia [97, 98, 0] = .ok ([0], []) ∧
    ([0] : List Nat) ≠ [97, 98] ∧
    decodeConstrainedMedia [0x83] = .ok (strBytes "text/plain", []) ∧
    decodeConstrainedMedia [0x89] = .error (.unknownShortContentType 9) :=
  ⟨rfl, rfl, by decide, rfl, rfl⟩

/-- Claim C2: the claim says a first byte of 32 or more makes
decodeEncodedString return the plain textString decoding (quote byte
stripped iff the first byte is 128 or more, then the bytes before the
terminator).  The code instead returns the one-byte string holding the
final zero byte and never strips a quote byte in this branch: on "ab\0"
decodeTextEnc gives "ab" but decodeEncodedString gives "\0", and on
[200, 97, 0] decodeTextEnc gives "a" but decodeEncodedString gives "\0"
(same missing slice colon as in decodeConstrainedMedia). -/
theorem claim_C2_slice_bug :
    decodeEncodedString [97, 98, 0] = .ok ([0], []) ∧
    decodeTextEnc [97, 98, 0] = .ok ([97, 98], []) ∧
    ([0] : List Nat) ≠ [97, 98] ∧
    decodeEncodedString [200, 97, 0] = .ok ([0], []) ∧
    decodeTextEnc [200, 97, 0] = .ok ([97], []) :=
  ⟨rfl, rfl, by decide, rfl, rfl⟩

/-- Claim C3, counterexample: 2^32 is within the claimed bound 2^35-1, its
standard uintvar encoding is 5 bytes, yet decodeVarUint returns 0, not
2^32, because the accumulator is a Go uint32. -/
theorem claim_C3_counterexample :
    4294967296 ≤ 2 ^ 35 - 1 ∧
    decodeVarUint (encodeVarUint 4294967296) = .ok (0, []) ∧
    (0 : Nat) ≠ 4294967296 :=
  ⟨by norm_num, rfl, by norm_num⟩

/-- Claim C3 as amended: decoding the standard 7-bit-per-byte
MSB-continuation encoding of any n up to 2^32-1 (not 2^35-1: the uint32
accumulator truncates beyond that) succeeds and returns n, and any 6-byte
sequence whose bytes all carry the continuation bit fails with the
invalid-var-uint error. -/
theorem claim_C3_varuint :
    (∀ n rest, n ≤ 4294967295 →
      decodeVarUint (encodeVarUint n ++ rest) = .ok (n, rest)) ∧
    (∀ b1 b2 b3 b4 b5 b6 : Nat, b1 &&& 0x80 = 0x80 → b2 &&& 0x80 = 0x80 →
      b3 &&& 0x80 = 0x80 → b4 &&& 0x80 = 0x80 → b5 &&& 0x80 = 0x80 →
      b6 &&& 0x80 = 0x80 →
      decodeVarUint [b1, b2, b3, b4, b5, b6] = .error .invalidVarUint) := by
  constructor
  · intro n rest h
    exact varUint_encode_decode n (by omega) rest
  · intro b1 b2 b3 b4 b5 b6 h1 h2 h3 h4 h5 h6
    simp [decodeVarUint, decodeVarUintAux, h1, h2, h3, h4, h5, h6]

/-- Claim C3, witness: the encoding of 300 round-trips, and six bytes of
0x80 fail. -/
theorem claim_C3_varuint_witness :
    decodeVarUint (encodeVarUint 300 ++ []) = .ok (300, []) ∧
    decodeVarUint [0x80, 0x80, 0x80, 0x80, 0x80, 0x80] = .error .invalidVarUint :=
  ⟨claim_C3_varuint.1 300 [] (by norm_num),
   claim_C3_varuint.2 0x80 0x80 0x80 0x80 0x80 0x80 rfl rfl rfl rfl rfl rfl⟩

/-- Claim C7: MessageType value byte 128 decodes to the m-send-req variant
rendered "m-send-req"; value byte 135, outside 128-134, still decodes
successfully, to the explicit Unknown variant. -/
theorem claim_C7_messageType :
    decodeMessageType [128] = .ok (MSendReq, []) ∧
    msgTypeString MSendReq = "m-send-req" ∧
    decodeMessageType [135] = .ok (UnknownMessageType, []) ∧
    msgTypeString UnknownMessageType = "UnknownMessageType" :=
  ⟨rfl, rfl, rfl, rfl⟩

/-- Claim C8: a lone byte decodes as a shortInteger exactly when its high
bit is set, and then the value is its low 7 bits. -/
theorem claim_C8_shortInt (b : Nat) (h : b < 256) :
    ((decodeShortInt [b]).isOk = true ↔ b &&& 0x80 = 0x80) ∧
    (b &&& 0x80 = 0x80 → decodeShortInt [b] = .ok (b &&& 0x7f, [])) := by
  by_cases hc : b &&& 0x80 = 0x80 <;>
    simp [decodeShortInt, hc, Except.isOk, Except.toBool]

/-- Claim C8, witness at byte 0x85 (high bit set, value 5). -/
theorem claim_C8_shortInt_witness :
    ((decodeShortInt [0x85]).isOk = true ↔ 0x85 &&& 0x80 = 0x80) ∧
    (0x85 &&& 0x80 = 0x80 → decodeShortInt [0x85] = .ok (0x85 &&& 0x7f, [])) :=
  claim_C8_shortInt 0x85 (by norm_num)

/-- Claim C10: decodeRelativeOrAbsoluteTime discards the result and error
of its decodeValueLength call, so an invalid single length byte (above 31)
is consumed and decoding proceeds to the mode byte; with mode 128 or 129
and a well-formed longInteger the field decodes successfully. -/
theorem claim_C10_timeField (b mode lv : Nat) (r rest : List Nat) (hb : 31 < b)
    (hmode : mode = 128 ∨ mode = 129) (hli : decodeLongInt r = .ok (lv, rest)) :
    decodeRelativeOrAbsoluteTime (b :: mode :: r) =
      .ok (if mode = 128 then RelOrAbsTime.absolute lv else RelOrAbsTime.relative lv,
           rest) := by
  have hb31 : b ≠ 31 := by omega
  rcases hmode with h | h <;>
    simp [decodeRelativeOrAbsoluteTime, valueLengthSkip, hb31, hli, h]

/-- Claim C10, witness: length byte 200 (invalid for valueLength) then mode
128 and longInteger 5 decode to the absolute time 5. -/
theorem claim_C10_timeField_witness :
    decodeRelativeOrAbsoluteTime [200, 128, 1, 5] = .ok (RelOrAbsTime.absolute 5, []) := by
  simpa using claim_C10_timeField 200 128 5 [1, 5] [] (by norm_num) (Or.inl rfl) rfl

/-- Claim C4: the minimal synthetic PDU
[MessageType tag]130 [TransactionID tag]"abc\0" [MMSVersion tag]0x90
[ContentType tag][short form text/plain] [varUint 0]
decodes to a Message with exactly those four header entries - MessageType
m-notification-ind, TransactionID "abc", MMSVersion rendered "1.0",
ContentType "text/plain" - and no parts. -/
theorem claim_C4_endToEnd :
    Unmarshal [0x8c, 130, 0x98, 97, 98, 99, 0, 0x8d, 0x90, 0x84, 0x83, 0x00] =
      .ok ⟨[(12, .msgType MNotificationInd), (24, .str (strBytes "abc")),
            (13, .str (strBytes "1.0")), (4, .str (strBytes "text/plain"))], []⟩ ∧
    msgTypeString MNotificationInd = "m-notification-ind" ∧
    goStr (strBytes "abc") = "abc" ∧ goStr (strBytes "1.0") = "1.0" ∧
    goStr (strBytes "text/plain") = "text/plain" :=
  ⟨rfl, rfl, rfl, rfl, rfl⟩

/-- Claim C5: a PDU that is a single Subject field (tag 0x96 then any
well-formed encoded-string value consuming the rest of the input) decodes
successfully into a Message whose header holds exactly that one Subject
entry and whose parts are empty: end of input at a field-tag boundary is
normal termination, and the end of input that decodeBody then hits is the
tolerated io.EOF. -/
theorem claim_C5_subjectOnly (v s : List Nat) (h : decodeEncodedString v = .ok (s, [])) :
    Unmarshal (0x96 :: v) = .ok ⟨[(22, .str s)], []⟩ ∧
    hdrGet [(22, HeaderField.str s)] 22 = [.str s] := by
  constructor
  · have hx : (150 : Nat) &&& 128 = 128 := by decide
    have hy : (150 : Nat) &&& 127 = 22 := by decide
    simp only [Unmarshal, decodeHeader, List.length_cons, decodeHeaderLoop, hx, hy, h,
      decodeBody, decodeVarUint, decodeVarUintAux]
    norm_num
  · simp [hdrGet]

/-- Claim C5, witness: subject value "hi\0" (which decodeEncodedString,
because of the missing-colon slice, decodes to the one-byte string "\0";
the decode still succeeds and stores exactly one Subject entry). -/
theorem claim_C5_subjectOnly_witness :
    Unmarshal [0x96, 104, 105, 0] = .ok ⟨[(22, .str [0])], []⟩ :=
  (claim_C5_subjectOnly [104, 105, 0] [0] rfl).1

/-- Claim C6: whenever the header loop reads a field-tag byte (high bit
set) whose low 7 bits are nonzero and not a known field, it fails - in any
loop state - with the error naming that field value, and Unmarshal of an
input starting with such a tag returns that error and no Message. -/
theorem claim_C6_unknownField (b : Nat) (rest : List Nat)
    (hb : b &&& 0x80 = 0x80) (hf : knownMMSField (b &&& 0x7f) = false)
    (h0 : b &&& 0x7f ≠ 0) :
    (∀ fuel hdr, decodeHeaderLoop (fuel + 1) hdr (b :: rest) =
        .error (.unknownFieldType (b &&& 0x7f))) ∧
    Unmarshal (b :: rest) = .error (.unknownFieldType (b &&& 0x7f)) := by
  have h26 : 26 ≤ b &&& 0x7f := by
    simp [knownMMSField] at hf
    rcases Nat.eq_zero_or_pos (b &&& 0x7f) with hz | hp
    · exact absurd hz h0
    · exact hf hp
  have key : ∀ fuel hdr, decodeHeaderLoop (fuel + 1) hdr (b :: rest) =
      .error (.unknownFieldType (b &&& 0x7f)) := by
    intro fuel hdr
    simp only [decodeHeaderLoop]
    rw [if_neg (by simp [hb])]
    generalize b &&& 0x7f = x at h26 ⊢
    iterate 17 rw [if_neg (by omega)]
  refine ⟨key, ?_⟩
  simp only [Unmarshal, decodeHeader, List.length_cons]
  rw [key (rest.length + 1) []]

/-- Claim C6, witness: tag byte 0x9a (field 26, unknown) makes the whole
decode fail with the error naming field 26. -/
theorem claim_C6_unknownField_witness :
    Unmarshal [0x9a] = .error (.unknownFieldType 26) := by
  simpa using (claim_C6_unknownField 0x9a [] rfl rfl (by decide)).2

/-- Claim C9, counterexample: a one-part body whose part header block
decodes but whose declared two data bytes are cut to one fails, as the
claim says, but with the partBodyShortRead error, which does not report
the byte counts (the Go message "read mime part body err %w" interpolates
no counts, unlike the header-length error). -/
theorem claim_C9_counterexample :
    decodeBody [1, 1, 2, 0x83, 97] = .error .partBodyShortRead ∧
    DecErr.reportsByteCounts .partBodyShortRead = false :=
  ⟨rfl, rfl⟩

/-- Claim C9 as amended: a decoded part's raw payload is exactly the
declared data-length bytes taken verbatim from the input; too few bytes
for the declared header length fail with an error reporting the read and
wanted byte counts; too few bytes for the declared data length fail with
an error that carries no byte counts. -/
theorem claim_C9_partExactness :
    (∀ hl dl hdrBytes data rest info n,
      hl < 4294967296 → dl < 4294967296 →
      hdrBytes.length = hl → data.length = dl →
      decodePartHeaderBlock hdrBytes = .ok info →
      decodeParts (n + 1)
          (encodeVarUint hl ++ (encodeVarUint dl ++ (hdrBytes ++ (data ++ rest)))) =
        Except.map (fun pr => (mkPart info data :: pr.1, pr.2)) (decodeParts n rest) ∧
      (mkPart info data).data = data) ∧
    (∀ hl dl short n, hl < 4294967296 → dl < 4294967296 → short.length < hl →
      decodeParts (n + 1) (encodeVarUint hl ++ (encodeVarUint dl ++ short)) =
        .error (.partHeaderShortRead short.length hl)) ∧
    (∀ hl dl hdrBytes data info n, hl < 4294967296 → dl < 4294967296 →
      hdrBytes.length = hl → data.length < dl →
      decodePartHeaderBlock hdrBytes = .ok info →
      decodeParts (n + 1) (encodeVarUint hl ++ (encodeVarUint dl ++ (hdrBytes ++ data))) =
        .error .partBodyShortRead) := by
  refine ⟨?_, ?_, ?_⟩
  · intro hl dl hdrBytes data rest info n hhl hdl hlen hdlen hblock
    have e1 := varUint_encode_decode hl hhl (encodeVarUint dl ++ (hdrBytes ++ (data ++ rest)))
    have e2 := varUint_encode_decode dl hdl (hdrBytes ++ (data ++ rest))
    have e3 : ¬ ((hdrBytes ++ (data ++ rest)).length < hl) := by
      simp only [List.length_append]
      omega
    have e4 : (hdrBytes ++ (data ++ rest)).take hl = hdrBytes := List.take_left' hlen
    have e5 : (hdrBytes ++ (data ++ rest)).drop hl = data ++ rest := List.drop_left' hlen
    have e6 : ¬ ((data ++ rest).length < dl) := by
      simp only [List.length_append]
      omega
    have e7 : (data ++ rest).take dl = data := List.take_left' hdlen
    have e8 : (data ++ rest).drop dl = rest := List.drop_left' hdlen
    refine ⟨?_, rfl⟩
    cases hrec : decodeParts n rest with
    | error e =>
        simp [decodeParts, e1, e2, e3, e4, e5, e6, e7, e8, hblock, hrec, Except.map]
        rw [if_neg (by omega), if_neg (by omega)]
    | ok pr =>
        simp [decodeParts, e1, e2, e3, e4, e5, e6, e7, e8, hblock, hrec, Except.map]
        rw [if_neg (by omega), if_neg (by omega)]
  · intro hl dl short n hhl hdl hsh
    have e1 := varUint_encode_decode hl hhl (encodeVarUint dl ++ short)
    have e2 := varUint_encode_decode dl hdl short
    simp [decodeParts, e1, e2, hsh]
  · intro hl dl hdrBytes data info n hhl hdl hlen hdlen hblock
    have e1 := varUint_encode_decode hl hhl (encodeVarUint dl ++ (hdrBytes ++ data))
    have e2 := varUint_encode_decode dl hdl (hdrBytes ++ data)
    have e3 : ¬ ((hdrBytes ++ data).length < hl) := by
      simp only [List.length_append]
      omega
    have e4 : (hdrBytes ++ data).take hl = hdrBytes := List.take_left' hlen
    have e5 : (hdrBytes ++ data).drop hl = data := List.drop_left' hlen
    simp [decodeParts, e1, e2, e3, e4, e5, hblock, hdlen]
    omega

/-- Claim C9, witness: a text/plain part with payload [7, 8, 9] and
trailing stream [42] decodes exactly; declared header length 2 with one
byte left reports counts 1 and 2; declared data length 5 with one byte
left fails without counts. -/
theorem claim_C9_partExactness_witness :
    decodeParts 1 (encodeVarUint 1 ++ (encodeVarUint 3 ++ ([0x83] ++ ([7, 8, 9] ++ [42])))) =
      Except.map
        (fun pr => (mkPart ⟨strBytes "text/plain", [], []⟩ [7, 8, 9] :: pr.1, pr.2))
        (decodeParts 0 [42]) ∧
    decodeParts 1 (encodeVarUint 2 ++ (encodeVarUint 0 ++ [9])) =
      .error (.partHeaderShortRead 1 2) ∧
    decodeParts 1 (encodeVarUint 1 ++ (encodeVarUint 5 ++ ([0x83] ++ [7]))) =
      .error .partBodyShortRead :=
  ⟨(claim_C9_partExactness.1 1 3 [0x83] [7, 8, 9] [42] ⟨strBytes "text/plain", [], []⟩ 0
      (by norm_num) (by norm_num) rfl rfl rfl).1,
   claim_C9_partExactness.2.1 2 0 [9] 0 (by norm_num) (by norm_num) (by norm_num),
   claim_C9_partExactness.2.2 1 5 [0x83] [7] ⟨strBytes "text/plain", [], []⟩ 0
      (by norm_num) (by norm_num) rfl (by norm_num) rfl⟩

end Mms
